import Mathlib

/-!
Verification development for the NeuroPrompt orchestration core.

The embedding below translates `src/core/model_manager.py` and
`src/core/crew.py` into Lean.  Python dictionaries (insertion-ordered,
update-in-place) are modelled as association lists where `alistSet`
replaces the first occurrence of a key or appends a fresh key at the end,
exactly mirroring `d[k] = v`, and `alistGet` reads the first occurrence,
mirroring `d[k]` (a missing key, a `KeyError` in Python, reads as `none`;
in every state reachable from the constructor all looked-up keys are
present).  Network I/O (`requests.post` plus `raise_for_status`) is
abstracted as an oracle `attempt : Nat → String → Option α` giving, for
the k-th network call of a request and the model identifier placed in the
payload, either the decoded response payload or a failure (any
`requests.exceptions.RequestException`).  The request body fields
`messages`, `temperature` and `max_tokens` are fixed across the attempts
of one request and only the `model` field varies, so the oracle closes
over them.
-/

/-- Association-list write, mirroring Python `d[k] = v` on an
insertion-ordered dict: update the first occurrence in place, else append. -/
def alistSet {α : Type} : List (String × α) → String → α → List (String × α)
  | [], k, v => [(k, v)]
  | p :: rest, k, v =>
      if p.1 == k then (k, v) :: rest else p :: alistSet rest k v

/-- Association-list read, mirroring Python `d[k]` / `d.get(k)`. -/
def alistGet {α : Type} (st : List (String × α)) (k : String) : Option α :=
  (st.find? (fun p => p.1 == k)).map (fun p => p.2)

/-- The key sequence of the dictionary (Python `list(d)`). -/
def alistKeys {α : Type} (st : List (String × α)) : List String :=
  st.map (fun p => p.1)

/-- State of `ModelManager` (`src/core/model_manager.py`): the primary
model id, the ordered fallback list, and the availability dict
`model_status`.  `api_key` and `api_endpoint` play no role in control
flow and are omitted. -/
structure ModelManager where
  primary_model : String
  fallback_models : List String
  model_status : List (String × Bool)

/-- `self.model_status[k]`, defaulting a missing key to `False`
(unreachable from constructed states). -/
def lookupStatus (st : List (String × Bool)) (k : String) : Bool :=
  (alistGet st k).getD false

/-- The fallback scan of `get_available_model`: the `for model in
self.fallback_models` loop returning the first model whose flag is set. -/
def findAvailableFallback (st : List (String × Bool)) : List String → Option String
  | [] => none
  | f :: rest =>
      if lookupStatus st f then some f else findAvailableFallback st rest

/-- The reset loop `for model in self.model_status: self.model_status[model]
= True` (also the body of `reset_model_status`). -/
def resetAll (st : List (String × Bool)) : List (String × Bool) :=
  st.map (fun p => (p.1, true))

/-- `ModelManager.__init__` restricted to state construction: insert the
primary, then each fallback, into `model_status` with flag `True`. -/
def mkManager (primary : String) (fallbacks : List String) : ModelManager :=
  { primary_model := primary
    fallback_models := fallbacks
    model_status :=
      fallbacks.foldl (fun st f => alistSet st f true) (alistSet [] primary true) }

/-- `ModelManager.get_available_model`: primary if its flag is set, else the
first available fallback, else reset every flag and return the primary.
Returns the chosen model id together with the (possibly reset) state. -/
def get_available_model (m : ModelManager) : String × ModelManager :=
  if lookupStatus m.model_status m.primary_model then
    (m.primary_model, m)
  else
    match findAvailableFallback m.model_status m.fallback_models with
    | some f => (f, m)
    | none => (m.primary_model, { m with model_status := resetAll m.model_status })

/-- Decides whether a call to `get_available_model` would take its reset
branch: the primary flag is down and the fallback scan finds nothing. -/
def willReset (m : ModelManager) : Bool :=
  !(lookupStatus m.model_status m.primary_model) &&
    (findAvailableFallback m.model_status m.fallback_models).isNone

/-- Observable outcome of one `generate_completion` call: the returned
value (`none` when all attempts failed), the final manager state, the
number of network attempts performed, and whether any selection during the
request took the reset branch. -/
structure GCRun (α : Type) where
  result : Option α
  mgr : ModelManager
  attempts : Nat
  didReset : Bool

/-- The `for _ in range(len(self.model_status))` loop of
`generate_completion`: each iteration selects a model, performs one network
attempt (oracle call `attempt k model`), returns the payload on success and
marks the model unavailable on failure.  `fuel` is the remaining iteration
count and `k` the global attempt index. -/
def completion_loop {α : Type} (attempt : Nat → String → Option α) :
    Nat → Nat → ModelManager → GCRun α
  | 0, _, m => ⟨none, m, 0, false⟩
  | fuel + 1, k, m =>
      let dr := willReset m
      let sel := get_available_model m
      match attempt k sel.1 with
      | some v => ⟨some v, sel.2, 1, dr⟩
      | none =>
          let m2 :=
            { sel.2 with model_status := alistSet sel.2.model_status sel.1 false }
          let rest := completion_loop attempt fuel (k + 1) m2
          ⟨rest.result, rest.mgr, rest.attempts + 1, dr || rest.didReset⟩

/-- `ModelManager.generate_completion`: try models for
`len(self.model_status)` iterations (the bound is computed once, before the
loop, and the key set never changes during it), returning the first
successful payload or `None`. -/
def generate_completion {α : Type} (attempt : Nat → String → Option α)
    (m : ModelManager) : GCRun α :=
  completion_loop attempt m.model_status.length 0 m

/-- `ModelManager.get_models_status`: returns the availability dict. -/
def get_models_status (m : ModelManager) : List (String × Bool) :=
  m.model_status

/-- `ModelManager.reset_model_status`: set every flag to `True`. -/
def reset_model_status (m : ModelManager) : ModelManager :=
  { m with model_status := resetAll m.model_status }

/-- One public operation on the manager, for stating invariants over call
sequences.  A `complete` op carries the network oracle of that request. -/
inductive MMOp where
  | select : MMOp
  | complete : (Nat → String → Option String) → MMOp
  | status : MMOp
  | reset : MMOp

/-- State effect of one operation (`get_available_model`,
`generate_completion`, `get_models_status`, `reset_model_status`). -/
def applyOp (op : MMOp) (m : ModelManager) : ModelManager :=
  match op with
  | MMOp.select => (get_available_model m).2
  | MMOp.complete attempt => (generate_completion attempt m).mgr
  | MMOp.status => m
  | MMOp.reset => reset_model_status m

/-- State after a sequence of operations. -/
def applyOps (ops : List MMOp) (m : ModelManager) : ModelManager :=
  ops.foldl (fun m op => applyOp op m) m

/-!  The crew (`src/core/crew.py`).  A CrewAI `Task` is modelled by its
agent, its dependency list (by the names used here for reference — the
Python objects are anonymous and depend on each other by reference) and
its `output_file`.  Descriptions are prompt templating, outside the core. -/

/-- A task as built by `NeuroPromptCrew._create_crew`. -/
structure TaskSpec where
  name : String
  agent : String
  dependencies : List String
  output_file : Option String

/-- `research_task`: no dependencies, no output file. -/
def research_task : TaskSpec :=
  { name := "research", agent := "researcher", dependencies := [],
    output_file := none }

/-- `generate_task`: depends on research, writes `data/generated_prompt.txt`. -/
def generate_task : TaskSpec :=
  { name := "generate", agent := "prompt_generator", dependencies := ["research"],
    output_file := some "data/generated_prompt.txt" }

/-- `critique_task`: depends on generate, writes `data/prompt_critique.txt`. -/
def critique_task : TaskSpec :=
  { name := "critique", agent := "critic", dependencies := ["generate"],
    output_file := some "data/prompt_critique.txt" }

/-- `optimize_task`: depends on generate and critique, writes
`data/final_prompt.txt`. -/
def optimize_task : TaskSpec :=
  { name := "optimize", agent := "optimizer", dependencies := ["generate", "critique"],
    output_file := some "data/final_prompt.txt" }

/-- The task list passed to `Crew(...)` in `_create_crew`, in declaration
order. -/
def create_crew_tasks : List TaskSpec :=
  [research_task, generate_task, critique_task, optimize_task]

/-- The artifact store (the `data/` directory): key-value persistence keyed
by file path.  `write` then `read` go through `alistSet`/`alistGet`. -/
def storeWrite (store : List (String × String)) (k v : String) :
    List (String × String) :=
  alistSet store k v

/-- Read a persisted artifact; `none` models file-not-found. -/
def storeRead (store : List (String × String)) (k : String) : Option String :=
  alistGet store k

/-- Executor trace: the store of persisted artifacts, the stages that
completed, the stages that started executing, and the first failed stage. -/
structure ExecState where
  store : List (String × String)
  completed : List String
  executed : List String
  failed : Option String

/-- Modelled from the spec: the Pipeline Executor (provided at runtime by
the external `crewai` library, whose code is not part of this repository)
runs the declared tasks sequentially in declaration order; a stage starts
only when no earlier stage has failed and all its dependencies have
completed; after a stage completes, its artifact is written to its
declared `output_file` (when it declares one) before the next stage
starts; a failed stage halts all further stage execution while
already-written artifacts remain in the store. -/
def runTask (runStage : String → Option String) (s : ExecState) (t : TaskSpec) :
    ExecState :=
  if s.failed.isSome then s
  else if t.dependencies.all (fun d => s.completed.contains d) then
    match runStage t.name with
    | some content =>
        { store :=
            match t.output_file with
            | some f => storeWrite s.store f content
            | none => s.store
          completed := s.completed ++ [t.name]
          executed := s.executed ++ [t.name]
          failed := none }
    | none =>
        { s with executed := s.executed ++ [t.name], failed := some t.name }
  else s

/-- Modelled from the spec: `crew.kickoff()` executes the four declared
tasks under the sequential executor, starting from an empty trace. -/
def runPipeline (runStage : String → Option String) : ExecState :=
  create_crew_tasks.foldl (runTask runStage) ⟨[], [], [], none⟩

/-- The artifact of a task after a run: the store content under the task's
declared output file, `none` when the task declares no output file or the
file is absent. -/
def readArtifact (s : ExecState) (t : TaskSpec) : Option String :=
  t.output_file.bind (fun f => storeRead s.store f)

/-- Result dict of `NeuroPromptCrew.generate_prompt` (the opaque
`process_info` payload from `kickoff()` is omitted). -/
structure PromptResults where
  user_input : String
  final_prompt : String

/-- `NeuroPromptCrew.generate_prompt` after `crew.kickoff()` has produced
the store: read `data/final_prompt.txt`, defaulting to the fixed string
`"Could not generate prompt"` when the file cannot be read back
(`FileNotFoundError` is caught), and return the results dict. -/
def generate_prompt (user_input : String) (store : List (String × String)) :
    PromptResults :=
  let final_prompt :=
    match storeRead store "data/final_prompt.txt" with
    | some c => c
    | none => "Could not generate prompt"
  { user_input := user_input, final_prompt := final_prompt }

/-- A manager whose availability flags have been overwritten pointwise:
ranges over every registry state reachable by flipping flags of a
constructed registry (the key set is fixed at construction). -/
def withFlags (m : ModelManager) (flags : String → Bool) : ModelManager :=
  { m with model_status := m.model_status.map (fun p => (p.1, flags p.1)) }

/-- Number of availability flags currently set in the dict. -/
def countTrue (st : List (String × Bool)) : Nat :=
  (st.filter (fun p => p.2)).length

/-! Basic association-list lemmas. -/

/-- Writing a key then reading the same key yields the written value. -/
theorem alistGet_set_self {α : Type} (st : List (String × α)) (k : String) (v : α) :
    alistGet (alistSet st k v) k = some v := by
  induction st with
  | nil => simp [alistSet, alistGet]
  | cons p rest ih =>
      by_cases h : p.1 == k
      · simp [alistSet, h, alistGet]
      · simp [alistSet, h, alistGet] at ih ⊢
        exact ih

/-! C5, C9, C10, C7 and the C4 counterexample. -/

/-- C5: with primary "A" and fallbacks ["B","C"] all available, if the
attempts to A and B fail and the attempt to C succeeds, the request
returns C's payload after exactly 3 attempts, and afterwards A and B are
flagged unavailable while C stays available. -/
theorem scenario_A_B_fail_C_succeeds :
    (generate_completion
        (fun _ mo => if mo == "C" then some "payload-C" else none)
        (mkManager "A" ["B", "C"])).result = some "payload-C" ∧
    (generate_completion
        (fun _ mo => if mo == "C" then some "payload-C" else none)
        (mkManager "A" ["B", "C"])).attempts = 3 ∧
    lookupStatus (generate_completion
        (fun _ mo => if mo == "C" then some "payload-C" else none)
        (mkManager "A" ["B", "C"])).mgr.model_status "A" = false ∧
    lookupStatus (generate_completion
        (fun _ mo => if mo == "C" then some "payload-C" else none)
        (mkManager "A" ["B", "C"])).mgr.model_status "B" = false ∧
    lookupStatus (generate_completion
        (fun _ mo => if mo == "C" then some "payload-C" else none)
        (mkManager "A" ["B", "C"])).mgr.model_status "C" = true :=
  ⟨rfl, rfl, rfl, rfl, rfl⟩

/-- C4 counterexample: with primary "A" and fallbacks ["B","C"] all
available and every attempt failing, the request returns after exactly 3
attempts without any selection taking the reset branch: no full reset and
no extra attempt happen within the request (all flags are left `false`). -/
theorem exhaustion_no_reset_within_request :
    (generate_completion (fun _ _ => (none : Option String))
        (mkManager "A" ["B", "C"])).didReset = false ∧
    (generate_completion (fun _ _ => (none : Option String))
        (mkManager "A" ["B", "C"])).attempts = 3 ∧
    (generate_completion (fun _ _ => (none : Option String))
        (mkManager "A" ["B", "C"])).mgr.model_status
      = [("A", false), ("B", false), ("C", false)] :=
  ⟨rfl, rfl, rfl⟩

/-- C9: writing content under a stage's key and reading the same key back
yields content identical to what was written. -/
theorem store_write_read_roundtrip (store : List (String × String)) (k v : String) :
    storeRead (storeWrite store k v) k = some v :=
  alistGet_set_self store k v

/-- C10: when the final prompt file cannot be read back, `generate_prompt`
returns a normal result whose final prompt field is the fixed string
"Could not generate prompt". -/
theorem generate_prompt_missing_final (ui : String) (store : List (String × String))
    (h : storeRead store "data/final_prompt.txt" = none) :
    (generate_prompt ui store).final_prompt = "Could not generate prompt" := by
  simp [generate_prompt, h]

/-- Witness for C10 at the empty store. -/
theorem generate_prompt_missing_final_witness :
    (generate_prompt "ui" []).final_prompt = "Could not generate prompt" :=
  generate_prompt_missing_final "ui" [] rfl

/-- C7: the orchestrator builds exactly the 4-stage diamond — Research has
no dependencies, Generate depends only on Research, Critique only on
Generate, Optimize exactly on Generate and Critique — and the final result
field of `generate_prompt` is the persisted artifact content of the
Optimize stage's output file. -/
theorem crew_graph_and_final_artifact :
    research_task.dependencies = [] ∧
    generate_task.dependencies = [research_task.name] ∧
    critique_task.dependencies = [generate_task.name] ∧
    optimize_task.dependencies = [generate_task.name, critique_task.name] ∧
    create_crew_tasks = [research_task, generate_task, critique_task, optimize_task] ∧
    ∀ f, optimize_task.output_file = some f →
      ∀ ui store c, storeRead store f = some c →
        (generate_prompt ui store).final_prompt = c := by
  refine ⟨rfl, rfl, rfl, rfl, rfl, ?_⟩
  intro f hf ui store c hc
  have hf2 : f = "data/final_prompt.txt" := by
    simpa [optimize_task] using hf.symm
  subst hf2
  simp [generate_prompt, hc]

/-- Witness for C7 at a concrete store holding the final artifact. -/
theorem crew_graph_and_final_artifact_witness :
    (generate_prompt "ui" [("data/final_prompt.txt", "X")]).final_prompt = "X" :=
  crew_graph_and_final_artifact.2.2.2.2.2 "data/final_prompt.txt" rfl
    "ui" [("data/final_prompt.txt", "X")] "X" rfl

/-! Lemmas on the fallback scan and the reset, leading to C1. -/

/-- The fallback scan returns the first fallback, in declared order, whose
flag is set. -/
theorem findAvailableFallback_first (st : List (String × Bool)) :
    ∀ (fbs : List String) (i : Nat) (h : i < fbs.length),
      lookupStatus st (fbs.get ⟨i, h⟩) = true →
      (∀ (j : Nat) (hj : j < fbs.length), j < i → lookupStatus st (fbs.get ⟨j, hj⟩) = false) →
      findAvailableFallback st fbs = some (fbs.get ⟨i, h⟩) := by
  intro fbs
  induction fbs with
  | nil => intro i h; exact absurd h (by simp)
  | cons f rest ih =>
      intro i h htrue hbefore
      cases i with
      | zero =>
          simp only [List.get] at htrue
          simp [findAvailableFallback, htrue]
      | succ n =>
          have hf : lookupStatus st f = false :=
            hbefore 0 (Nat.succ_pos _) (Nat.succ_pos n)
          have htail := ih n (Nat.lt_of_succ_lt_succ h) htrue
            (fun j hj hji => hbefore (j + 1) (Nat.succ_lt_succ hj) (Nat.succ_lt_succ hji))
          simp [findAvailableFallback, hf, htail]

/-- The fallback scan finds nothing when every fallback flag is down. -/
theorem findAvailableFallback_none (st : List (String × Bool)) :
    ∀ (fbs : List String), (∀ f ∈ fbs, lookupStatus st f = false) →
      findAvailableFallback st fbs = none := by
  intro fbs
  induction fbs with
  | nil => intro; rfl
  | cons f rest ih =>
      intro hall
      have hf : lookupStatus st f = false := hall f (by simp)
      have htail := ih (fun g hg => hall g (by simp [hg]))
      simp [findAvailableFallback, hf, htail]

/-- Resetting flags keeps the key sequence. -/
theorem alistKeys_resetAll (st : List (String × Bool)) :
    alistKeys (resetAll st) = alistKeys st := by
  simp [alistKeys, resetAll]

/-- After a reset every flag in the dict is set. -/
theorem mem_resetAll (st : List (String × Bool)) (pair : String × Bool)
    (h : pair ∈ resetAll st) : pair.2 = true := by
  simp only [resetAll, List.mem_map] at h
  obtain ⟨a, _, rfl⟩ := h
  rfl

/-- C1: `get_available_model` returns the primary when its flag is set;
otherwise the first fallback, in declared order, whose flag is set, leaving
the state untouched; and when no flag is set it sets every flag and returns
the primary. -/
theorem get_available_model_policy (m : ModelManager) :
    (lookupStatus m.model_status m.primary_model = true →
      get_available_model m = (m.primary_model, m)) ∧
    (lookupStatus m.model_status m.primary_model = false →
      ∀ (i : Nat) (h : i < m.fallback_models.length),
        lookupStatus m.model_status (m.fallback_models.get ⟨i, h⟩) = true →
        (∀ (j : Nat) (hj : j < m.fallback_models.length), j < i →
          lookupStatus m.model_status (m.fallback_models.get ⟨j, hj⟩) = false) →
        get_available_model m = (m.fallback_models.get ⟨i, h⟩, m)) ∧
    (lookupStatus m.model_status m.primary_model = false →
      (∀ f ∈ m.fallback_models, lookupStatus m.model_status f = false) →
      (get_available_model m).1 = m.primary_model ∧
      alistKeys (get_available_model m).2.model_status = alistKeys m.model_status ∧
      ∀ pair ∈ (get_available_model m).2.model_status, pair.2 = true) := by
  refine ⟨?_, ?_, ?_⟩
  · intro hp
    simp [get_available_model, hp]
  · intro hp i h htrue hbefore
    have hfind := findAvailableFallback_first m.model_status m.fallback_models i h htrue hbefore
    simp [get_available_model, hp, hfind]
  · intro hp hall
    have hfind := findAvailableFallback_none m.model_status m.fallback_models hall
    refine ⟨?_, ?_, ?_⟩
    · simp [get_available_model, hp, hfind]
    · simp [get_available_model, hp, hfind, alistKeys_resetAll]
    · intro pair hpair
      simp only [get_available_model, hp, hfind] at hpair
      simp only [Bool.false_eq_true, if_false] at hpair
      exact mem_resetAll m.model_status pair hpair

/-- Witness for C1: primary down, first fallback down, second fallback up
selects the second fallback and leaves the state unchanged. -/
theorem get_available_model_policy_witness :
    get_available_model
        { primary_model := "A", fallback_models := ["B", "C"],
          model_status := [("A", false), ("B", false), ("C", true)] }
      = ("C",
        { primary_model := "A", fallback_models := ["B", "C"],
          model_status := [("A", false), ("B", false), ("C", true)] }) :=
  (get_available_model_policy
      { primary_model := "A", fallback_models := ["B", "C"],
        model_status := [("A", false), ("B", false), ("C", true)] }).2.1
    rfl 1 (by decide) rfl
    (fun j hj hji => by
      have hj0 : j = 0 := by omega
      subst hj0
      rfl)

/-! Attempt-count and return-value lemmas for `generate_completion`
(C2, C3). -/

/-- A dict write grows the dict by at most one entry. -/
theorem length_alistSet_le {α : Type} (st : List (String × α)) (k : String) (v : α) :
    (alistSet st k v).length ≤ st.length + 1 := by
  induction st with
  | nil => simp [alistSet]
  | cons p rest ih =>
      by_cases h : p.1 == k
      · simp [alistSet, h]
      · simp [alistSet, h]
        omega

/-- The constructed availability dict has at most one entry per declared
model: the primary plus each fallback (duplicates collapse). -/
theorem length_mkManager_le (p : String) (fbs : List String) :
    (mkManager p fbs).model_status.length ≤ fbs.length + 1 := by
  have general : ∀ (l : List String) (st : List (String × Bool)),
      (l.foldl (fun st f => alistSet st f true) st).length ≤ st.length + l.length := by
    intro l
    induction l with
    | nil => intro st; simp
    | cons f rest ih =>
        intro st
        have h1 := ih (alistSet st f true)
        have h2 := length_alistSet_le st f true
        simp only [List.foldl_cons, List.length_cons]
        omega
  have h := general fbs (alistSet [] p true)
  simp only [mkManager]
  simp only [alistSet, List.length_cons, List.length_nil] at h ⊢
  omega

/-- Each loop iteration performs exactly one network attempt, so the loop
performs at most `fuel` attempts. -/
theorem completion_loop_attempts_le {α : Type} (attempt : Nat → String → Option α) :
    ∀ (fuel k : Nat) (m : ModelManager),
      (completion_loop attempt fuel k m).attempts ≤ fuel := by
  intro fuel
  induction fuel with
  | zero => intro k m; exact Nat.le_refl 0
  | succ n ih =>
      intro k m
      rw [completion_loop]
      cases hA : attempt k (get_available_model m).1 with
      | some v => exact Nat.succ_le_succ (Nat.zero_le n)
      | none => exact Nat.succ_le_succ (ih (k + 1) _)

/-- C2: on every initial registry state (arbitrary flags over the
constructed key set) and every network behaviour, `generate_completion`
performs at most `n + 1` network attempts, `n` the number of declared
fallback models; in particular the loop terminates. -/
theorem generate_completion_attempt_bound {α : Type} (p : String) (fbs : List String)
    (flags : String → Bool) (attempt : Nat → String → Option α) :
    (generate_completion attempt (withFlags (mkManager p fbs) flags)).attempts
      ≤ fbs.length + 1 := by
  have h1 := completion_loop_attempts_le attempt
    ((withFlags (mkManager p fbs) flags).model_status.length) 0
    (withFlags (mkManager p fbs) flags)
  have h2 : (withFlags (mkManager p fbs) flags).model_status.length
      = (mkManager p fbs).model_status.length := by
    simp [withFlags]
  have h3 := length_mkManager_le p fbs
  have h4 : (generate_completion attempt (withFlags (mkManager p fbs) flags)).attempts
      ≤ (withFlags (mkManager p fbs) flags).model_status.length := h1
  omega

/-- When every network attempt fails the loop returns `none`. -/
theorem completion_loop_none_of_all_fail {α : Type} (attempt : Nat → String → Option α)
    (hfail : ∀ j mo, attempt j mo = none) :
    ∀ (fuel k : Nat) (m : ModelManager),
      (completion_loop attempt fuel k m).result = none := by
  intro fuel
  induction fuel with
  | zero => intro k m; rfl
  | succ n ih =>
      intro k m
      rw [completion_loop]
      rw [hfail k (get_available_model m).1]
      exact ih (k + 1) _

/-- A successful return value is the payload of some successful network
attempt. -/
theorem completion_loop_some_of_success {α : Type} (attempt : Nat → String → Option α) :
    ∀ (fuel k : Nat) (m : ModelManager) (v : α),
      (completion_loop attempt fuel k m).result = some v →
      ∃ j mo, attempt j mo = some v := by
  intro fuel
  induction fuel with
  | zero =>
      intro k m v h
      simp [completion_loop] at h
  | succ n ih =>
      intro k m v h
      simp only [completion_loop] at h
      cases hA : attempt k (get_available_model m).1 with
      | some w =>
          rw [hA] at h
          have hw : w = v := by simpa using h
          exact ⟨k, (get_available_model m).1, by rw [hA, hw]⟩
      | none =>
          rw [hA] at h
          exact ih (k + 1) _ v h

/-- C3: when every attempt fails `generate_completion` returns the
explicit failure value `none` (it never raises past this boundary: the
function is total); a returned payload is the payload delivered by a
provider on some attempt; and when the very first attempt succeeds the
call returns its payload immediately, after exactly one attempt. -/
theorem generate_completion_no_raise {α : Type} (attempt : Nat → String → Option α)
    (m : ModelManager) :
    ((∀ j mo, attempt j mo = none) → (generate_completion attempt m).result = none) ∧
    (∀ v, (generate_completion attempt m).result = some v →
      ∃ j mo, attempt j mo = some v) ∧
    (∀ v, 0 < m.model_status.length →
      attempt 0 (get_available_model m).1 = some v →
      (generate_completion attempt m).result = some v ∧
      (generate_completion attempt m).attempts = 1) := by
  refine ⟨?_, ?_, ?_⟩
  · intro hfail
    exact completion_loop_none_of_all_fail attempt hfail m.model_status.length 0 m
  · intro v h
    exact completion_loop_some_of_success attempt m.model_status.length 0 m v h
  · intro v hlen hA
    obtain ⟨n, hn⟩ : ∃ n, m.model_status.length = n + 1 := by
      cases hcase : m.model_status.length with
      | zero => rw [hcase] at hlen; exact absurd hlen (by omega)
      | succ n => exact ⟨n, rfl⟩
    constructor
    · show (completion_loop attempt m.model_status.length 0 m).result = some v
      rw [hn, completion_loop, hA]
    · show (completion_loop attempt m.model_status.length 0 m).attempts = 1
      rw [hn, completion_loop, hA]

/-- Witness for C3: an always-failing oracle yields `none`, and an oracle
succeeding at the first attempt yields its payload after one attempt. -/
theorem generate_completion_no_raise_witness :
    (generate_completion (fun _ _ => (none : Option String))
      (mkManager "A" ["B"])).result = none ∧
    (generate_completion (fun _ _ => some "ok") (mkManager "A" ["B"])).result
      = some "ok" :=
  ⟨(generate_completion_no_raise (fun _ _ => (none : Option String))
      (mkManager "A" ["B"])).1 (fun _ _ => rfl),
   ((generate_completion_no_raise (fun _ _ => some "ok")
      (mkManager "A" ["B"])).2.2 "ok" (by decide) rfl).1⟩

/-! Key-set preservation: providers are never added or removed (C6). -/

/-- Keys of a cons cell. -/
theorem alistKeys_cons {α : Type} (p : String × α) (rest : List (String × α)) :
    alistKeys (p :: rest) = p.1 :: alistKeys rest := rfl

/-- Writing an existing key leaves the key sequence unchanged. -/
theorem alistKeys_set_of_mem {α : Type} (st : List (String × α)) (k : String) (v : α)
    (h : k ∈ alistKeys st) : alistKeys (alistSet st k v) = alistKeys st := by
  induction st with
  | nil => exact absurd h (by simp [alistKeys])
  | cons q rest ih =>
      rw [alistKeys_cons] at h
      by_cases hq : q.1 == k
      · have he : q.1 = k := eq_of_beq hq
        simp [alistSet, hq, alistKeys_cons, he]
      · have hne : k ≠ q.1 := fun he => hq (by simp [he])
        have hk : k ∈ alistKeys rest := by
          rcases List.mem_cons.mp h with he | hr
          · exact absurd he hne
          · exact hr
        simp [alistSet, hq, alistKeys_cons, ih hk]

/-- Membership in the key sequence survives any write. -/
theorem mem_keys_alistSet {α : Type} (st : List (String × α)) (k k2 : String) (v : α)
    (h : k ∈ alistKeys st) : k ∈ alistKeys (alistSet st k2 v) := by
  induction st with
  | nil => exact absurd h (by simp [alistKeys])
  | cons q rest ih =>
      rw [alistKeys_cons] at h
      by_cases hq : q.1 == k2
      · have he : q.1 = k2 := eq_of_beq hq
        rcases List.mem_cons.mp h with he2 | hr
        · rw [he2, he]
          simp [alistSet, hq, alistKeys_cons]
        · simp [alistSet, hq, alistKeys_cons]
          exact Or.inr hr
      · rcases List.mem_cons.mp h with he2 | hr
        · simp [alistSet, hq, alistKeys_cons]
          exact Or.inl he2
        · simp [alistSet, hq, alistKeys_cons]
          exact Or.inr (ih hr)

/-- A successful read means the key is present. -/
theorem mem_keys_of_alistGet {α : Type} (st : List (String × α)) (k : String) (v : α)
    (h : alistGet st k = some v) : k ∈ alistKeys st := by
  unfold alistGet at h
  cases hf : st.find? (fun p => p.1 == k) with
  | none => rw [hf] at h; simp at h
  | some q =>
      have hmem := List.mem_of_find?_eq_some hf
      have hpred := List.find?_some hf
      have he : q.1 = k := eq_of_beq hpred
      rw [← he]
      exact List.mem_map_of_mem (fun p => p.1) hmem

/-- A set flag means the model is a key of the dict. -/
theorem mem_keys_of_lookupStatus (st : List (String × Bool)) (k : String)
    (h : lookupStatus st k = true) : k ∈ alistKeys st := by
  unfold lookupStatus at h
  cases hg : alistGet st k with
  | none => rw [hg] at h; simp at h
  | some b => exact mem_keys_of_alistGet st k b hg

/-- A model found by the fallback scan has its flag set. -/
theorem lookup_of_findAvailableFallback (st : List (String × Bool)) :
    ∀ (fbs : List String) (f : String), findAvailableFallback st fbs = some f →
      lookupStatus st f = true := by
  intro fbs
  induction fbs with
  | nil => intro f h; simp [findAvailableFallback] at h
  | cons g rest ih =>
      intro f h
      by_cases hg : lookupStatus st g
      · simp [findAvailableFallback, hg] at h
        rw [← h]
        exact hg
      · simp [findAvailableFallback, hg] at h
        exact ih f h

/-- Selection returns a model that is a key of the dict, keeps the key
sequence, and never touches the declared model lists. -/
theorem get_available_model_spec (m : ModelManager)
    (hp : m.primary_model ∈ alistKeys m.model_status) :
    (get_available_model m).1 ∈ alistKeys m.model_status ∧
    alistKeys (get_available_model m).2.model_status = alistKeys m.model_status ∧
    (get_available_model m).2.primary_model = m.primary_model ∧
    (get_available_model m).2.fallback_models = m.fallback_models := by
  by_cases h1 : lookupStatus m.model_status m.primary_model
  · simp [get_available_model, h1, hp]
  · cases hf : findAvailableFallback m.model_status m.fallback_models with
    | some f =>
        have hmem := mem_keys_of_lookupStatus m.model_status f
          (lookup_of_findAvailableFallback m.model_status m.fallback_models f hf)
        simp [get_available_model, h1, hf, hmem]
    | none =>
        simp [get_available_model, h1, hf, alistKeys_resetAll, hp]

/-- The completion loop keeps the key sequence and the declared model
lists. -/
theorem completion_loop_keys {α : Type} (attempt : Nat → String → Option α) :
    ∀ (fuel k : Nat) (m : ModelManager),
      m.primary_model ∈ alistKeys m.model_status →
      alistKeys (completion_loop attempt fuel k m).mgr.model_status
          = alistKeys m.model_status ∧
      (completion_loop attempt fuel k m).mgr.primary_model = m.primary_model ∧
      (completion_loop attempt fuel k m).mgr.fallback_models = m.fallback_models := by
  intro fuel
  induction fuel with
  | zero => intro k m _; exact ⟨rfl, rfl, rfl⟩
  | succ n ih =>
      intro k m hp
      obtain ⟨hsel_mem, hsel_keys, hsel_p, hsel_f⟩ := get_available_model_spec m hp
      rw [completion_loop]
      cases hA : attempt k (get_available_model m).1 with
      | some v => exact ⟨hsel_keys, hsel_p, hsel_f⟩
      | none =>
          have hmem2 : (get_available_model m).1
              ∈ alistKeys (get_available_model m).2.model_status := by
            rw [hsel_keys]
            exact hsel_mem
          have hkeys2 := alistKeys_set_of_mem
            (get_available_model m).2.model_status (get_available_model m).1 false hmem2
          have hp2 : ({ (get_available_model m).2 with
              model_status := alistSet (get_available_model m).2.model_status
                (get_available_model m).1 false } : ModelManager).primary_model
              ∈ alistKeys ({ (get_available_model m).2 with
              model_status := alistSet (get_available_model m).2.model_status
                (get_available_model m).1 false } : ModelManager).model_status := by
            show (get_available_model m).2.primary_model
              ∈ alistKeys (alistSet (get_available_model m).2.model_status
                  (get_available_model m).1 false)
            rw [hkeys2, hsel_keys, hsel_p]
            exact hp
          obtain ⟨h1, h2, h3⟩ := ih (k + 1) _ hp2
          refine ⟨?_, ?_, ?_⟩
          · exact h1.trans (hkeys2.trans hsel_keys)
          · exact h2.trans hsel_p
          · exact h3.trans hsel_f

/-- The constructed registry contains its primary as a key. -/
theorem primary_mem_mkManager (p : String) (fbs : List String) :
    (mkManager p fbs).primary_model ∈ alistKeys (mkManager p fbs).model_status := by
  show p ∈ alistKeys (fbs.foldl (fun st f => alistSet st f true) (alistSet [] p true))
  have general : ∀ (l : List String) (st : List (String × Bool)),
      p ∈ alistKeys st → p ∈ alistKeys (l.foldl (fun st f => alistSet st f true) st) := by
    intro l
    induction l with
    | nil => intro st h; exact h
    | cons f rest ih =>
        intro st h
        exact ih _ (mem_keys_alistSet st p f true h)
  refine general fbs _ ?_
  simp [alistSet, alistKeys]

/-- Each public operation keeps the key sequence and the declared model
lists. -/
theorem applyOp_keys (op : MMOp) (m : ModelManager)
    (hp : m.primary_model ∈ alistKeys m.model_status) :
    alistKeys (applyOp op m).model_status = alistKeys m.model_status ∧
    (applyOp op m).primary_model = m.primary_model ∧
    (applyOp op m).fallback_models = m.fallback_models := by
  cases op with
  | select =>
      obtain ⟨_, hk, hp2, hf⟩ := get_available_model_spec m hp
      exact ⟨hk, hp2, hf⟩
  | complete attempt =>
      exact completion_loop_keys attempt m.model_status.length 0 m hp
  | status => exact ⟨rfl, rfl, rfl⟩
  | reset => exact ⟨alistKeys_resetAll _, rfl, rfl⟩

/-- C6: under every sequence of `get_available_model`,
`generate_completion`, `get_models_status` and `reset_model_status` calls,
the key sequence of the availability dict stays exactly the one fixed at
construction: providers are never added or removed. -/
theorem registry_membership_fixed (ops : List MMOp) (p : String) (fbs : List String) :
    alistKeys (applyOps ops (mkManager p fbs)).model_status
      = alistKeys (mkManager p fbs).model_status := by
  have general : ∀ (l : List MMOp) (m : ModelManager),
      m.primary_model ∈ alistKeys m.model_status →
      alistKeys (applyOps l m).model_status = alistKeys m.model_status ∧
      (applyOps l m).primary_model = m.primary_model := by
    intro l
    induction l with
    | nil => intro m _; exact ⟨rfl, rfl⟩
    | cons op rest ih =>
        intro m hp
        obtain ⟨hk, hpm, _⟩ := applyOp_keys op m hp
        have hp2 : (applyOp op m).primary_model
            ∈ alistKeys (applyOp op m).model_status := by
          rw [hk, hpm]
          exact hp
        obtain ⟨h1, h2⟩ := ih (applyOp op m) hp2
        constructor
        · show alistKeys (applyOps rest (applyOp op m)).model_status = _
          exact h1.trans hk
        · show (applyOps rest (applyOp op m)).primary_model = _
          exact h2.trans hpm
  exact (general ops (mkManager p fbs) (primary_mem_mkManager p fbs)).1

/-! Pipeline failure behaviour (C8). -/

/-- C8 counterexample: in a run where Research and Generate succeed and
Critique fails, the Research stage has no readable persisted artifact after
the run — its task declares no output file, so nothing was ever stored for
it (the claim asserts Research artifacts remain stored and readable). -/
theorem research_artifact_not_readable :
    (runPipeline
        (fun n => if n == "critique" then none else some ("out-" ++ n))).failed
      = some "critique" ∧
    readArtifact
        (runPipeline
          (fun n => if n == "critique" then none else some ("out-" ++ n)))
        research_task
      = none :=
  ⟨rfl, rfl⟩

/-- C8 (amended): in every run where Research and Generate succeed and
Critique fails, the Optimize stage never executes and Generate's persisted
artifact remains stored and readable; Research's artifact is not readable,
because its task declares no output file and so is never persisted. -/
theorem critique_failure_halts_optimize
    (runStage : String → Option String) (r g : String)
    (hr : runStage "research" = some r) (hg : runStage "generate" = some g)
    (hc : runStage "critique" = none) :
    "optimize" ∉ (runPipeline runStage).executed ∧
    (runPipeline runStage).failed = some "critique" ∧
    readArtifact (runPipeline runStage) generate_task = some g ∧
    readArtifact (runPipeline runStage) research_task = none := by
  have s1 : runTask runStage
      { store := [], completed := [], executed := [], failed := none } research_task
      = { store := [], completed := ["research"], executed := ["research"],
          failed := none } := by
    simp [runTask, research_task, hr]
  have s2 : runTask runStage
      { store := [], completed := ["research"], executed := ["research"],
        failed := none } generate_task
      = { store := [("data/generated_prompt.txt", g)],
          completed := ["research", "generate"],
          executed := ["research", "generate"], failed := none } := by
    simp [runTask, generate_task, hg, storeWrite, alistSet]
  have s3 : runTask runStage
      { store := [("data/generated_prompt.txt", g)],
        completed := ["research", "generate"],
        executed := ["research", "generate"], failed := none } critique_task
      = { store := [("data/generated_prompt.txt", g)],
          completed := ["research", "generate"],
          executed := ["research", "generate", "critique"],
          failed := some "critique" } := by
    simp [runTask, critique_task, hc]
  have s4 : runTask runStage
      { store := [("data/generated_prompt.txt", g)],
        completed := ["research", "generate"],
        executed := ["research", "generate", "critique"],
        failed := some "critique" } optimize_task
      = { store := [("data/generated_prompt.txt", g)],
          completed := ["research", "generate"],
          executed := ["research", "generate", "critique"],
          failed := some "critique" } := by
    simp [runTask]
  have hfinal : runPipeline runStage
      = { store := [("data/generated_prompt.txt", g)],
          completed := ["research", "generate"],
          executed := ["research", "generate", "critique"],
          failed := some "critique" } := by
    show (create_crew_tasks.foldl (runTask runStage) ⟨[], [], [], none⟩) = _
    simp only [create_crew_tasks, List.foldl_cons, List.foldl_nil]
    rw [s1, s2, s3, s4]
  rw [hfinal]
  refine ⟨?_, rfl, ?_, rfl⟩
  · simp
  · simp [readArtifact, generate_task, storeRead, alistGet]

/-- Witness for C8 at a concrete run where Critique fails. -/
theorem critique_failure_halts_optimize_witness :
    "optimize" ∉ (runPipeline
        (fun n => if n == "critique" then none else some ("out-" ++ n))).executed ∧
    (runPipeline
        (fun n => if n == "critique" then none else some ("out-" ++ n))).failed
      = some "critique" ∧
    readArtifact
        (runPipeline (fun n => if n == "critique" then none else some ("out-" ++ n)))
        generate_task
      = some "out-generate" ∧
    readArtifact
        (runPipeline (fun n => if n == "critique" then none else some ("out-" ++ n)))
        research_task
      = none :=
  critique_failure_halts_optimize
    (fun n => if n == "critique" then none else some ("out-" ++ n))
    "out-research" "out-generate" rfl rfl rfl

/-! Flag-counting machinery for the exhaustion analysis (C4). -/

/-- Writing a fresh key appends it to the key sequence. -/
theorem alistKeys_set_of_not_mem {α : Type} (st : List (String × α)) (k : String) (v : α)
    (h : k ∉ alistKeys st) : alistKeys (alistSet st k v) = alistKeys st ++ [k] := by
  induction st with
  | nil => simp [alistSet, alistKeys]
  | cons q rest ih =>
      rw [alistKeys_cons] at h
      have hne : k ≠ q.1 := fun he => h (by simp [he])
      have hq : (q.1 == k) = false := by
        simp only [beq_eq_false_iff_ne, ne_eq]
        exact fun he => hne he.symm
      have hrest : k ∉ alistKeys rest := fun hr => h (by simp [hr])
      simp [alistSet, hq, alistKeys_cons, ih hrest]

/-- Writes keep the key sequence duplicate-free. -/
theorem nodup_keys_alistSet {α : Type} (st : List (String × α)) (k : String) (v : α)
    (h : (alistKeys st).Nodup) : (alistKeys (alistSet st k v)).Nodup := by
  by_cases hk : k ∈ alistKeys st
  · rw [alistKeys_set_of_mem st k v hk]
    exact h
  · rw [alistKeys_set_of_not_mem st k v hk]
    simp [List.nodup_append, h, hk]

/-- The constructed availability dict has duplicate-free keys. -/
theorem nodup_keys_mkManager (p : String) (fbs : List String) :
    (alistKeys (mkManager p fbs).model_status).Nodup := by
  have general : ∀ (l : List String) (st : List (String × Bool)),
      (alistKeys st).Nodup →
      (alistKeys (l.foldl (fun st f => alistSet st f true) st)).Nodup := by
    intro l
    induction l with
    | nil => intro st h; exact h
    | cons f rest ih => intro st h; exact ih _ (nodup_keys_alistSet st f true h)
  exact general fbs _ (by simp [alistSet, alistKeys])

/-- Every key of the constructed dict is a declared model. -/
theorem keys_mkManager_subset (p : String) (fbs : List String) :
    ∀ x ∈ alistKeys (mkManager p fbs).model_status, x ∈ p :: fbs := by
  have general : ∀ (l : List String) (st : List (String × Bool)) (x : String),
      x ∈ alistKeys (l.foldl (fun st f => alistSet st f true) st) →
      x ∈ alistKeys st ∨ x ∈ l := by
    intro l
    induction l with
    | nil => intro st x h; exact Or.inl h
    | cons f rest ih =>
        intro st x h
        rcases ih (alistSet st f true) x h with h2 | h2
        · by_cases hf : f ∈ alistKeys st
          · rw [alistKeys_set_of_mem st f true hf] at h2
            exact Or.inl h2
          · rw [alistKeys_set_of_not_mem st f true hf] at h2
            rcases List.mem_append.mp h2 with h3 | h3
            · exact Or.inl h3
            · right
              simp at h3
              simp [h3]
        · right
          simp [h2]
  intro x hx
  rcases general fbs (alistSet [] p true) x hx with h | h
  · simp [alistSet, alistKeys] at h
    simp [h]
  · simp [h]

/-- Every flag of the constructed dict is set. -/
theorem values_mkManager_true (p : String) (fbs : List String) :
    ∀ q ∈ (mkManager p fbs).model_status, q.2 = true := by
  have hset : ∀ (st : List (String × Bool)) (k : String),
      (∀ q ∈ st, q.2 = true) → ∀ q ∈ alistSet st k true, q.2 = true := by
    intro st
    induction st with
    | nil =>
        intro k _ q hq
        simp [alistSet] at hq
        simp [hq]
    | cons w rest ih =>
        intro k hall q hq
        by_cases hw : w.1 == k
        · simp [alistSet, hw] at hq
          rcases hq with hq | hq
          · simp [hq]
          · exact hall q (by simp [hq])
        · simp [alistSet, hw] at hq
          rcases hq with hq | hq
          · exact hall q (by simp [hq])
          · exact ih k (fun w2 hw2 => hall w2 (by simp [hw2])) q hq
  have general : ∀ (l : List String) (st : List (String × Bool)),
      (∀ q ∈ st, q.2 = true) →
      ∀ q ∈ l.foldl (fun st f => alistSet st f true) st, q.2 = true := by
    intro l
    induction l with
    | nil => intro st h; exact h
    | cons f rest ih => intro st h; exact ih _ (hset st f h)
  refine general fbs _ ?_
  intro q hq
  simp [alistSet] at hq
  simp [hq]

/-- When every flag is set the true-count is the dict size. -/
theorem countTrue_eq_length (st : List (String × Bool))
    (h : ∀ q ∈ st, q.2 = true) : countTrue st = st.length := by
  unfold countTrue
  rw [List.filter_eq_self.mpr]
  intro a ha
  simp [h a ha]

/-- A zero true-count means every flag is down. -/
theorem all_false_of_countTrue_zero (st : List (String × Bool))
    (h : countTrue st = 0) : ∀ q ∈ st, q.2 = false := by
  unfold countTrue at h
  have hnil := List.length_eq_zero.mp h
  intro q hq
  have := List.filter_eq_nil_iff.mp hnil q hq
  simpa using this

/-- A positive true-count exhibits a set flag. -/
theorem exists_true_of_countTrue_pos (st : List (String × Bool))
    (h : 0 < countTrue st) : ∃ q ∈ st, q.2 = true := by
  unfold countTrue at h
  obtain ⟨q, hq⟩ := List.exists_mem_of_length_pos h
  have := List.mem_filter.mp hq
  exact ⟨q, this.1, this.2⟩

/-- When every flag is down every lookup reads `false`. -/
theorem lookupStatus_false_of_all_false (st : List (String × Bool))
    (h : ∀ q ∈ st, q.2 = false) (k : String) : lookupStatus st k = false := by
  unfold lookupStatus alistGet
  cases hf : st.find? (fun p => p.1 == k) with
  | none => rfl
  | some q =>
      have hmem := List.mem_of_find?_eq_some hf
      simp [h q hmem]

/-- Unset flag on a present key: marking it unavailable lowers the
true-count by exactly one. -/
theorem countTrue_set_false (st : List (String × Bool)) (k : String)
    (h : lookupStatus st k = true) :
    countTrue (alistSet st k false) + 1 = countTrue st := by
  induction st with
  | nil => exact absurd h (by simp [lookupStatus, alistGet])
  | cons q rest ih =>
      by_cases hq : q.1 == k
      · have hfind : List.find? (fun p => p.1 == k) (q :: rest) = some q := by
          unfold List.find?
          rw [hq]
        have hq2 : q.2 = true := by
          unfold lookupStatus alistGet at h
          rw [hfind] at h
          simpa using h
        simp [alistSet, hq, countTrue, List.filter_cons, hq2]
      · have hqf : (q.1 == k) = false := by simpa using hq
        have hfind : List.find? (fun p => p.1 == k) (q :: rest)
            = List.find? (fun p => p.1 == k) rest := by
          unfold List.find?
          rw [hqf]
          cases rest <;> rfl
        have hlk : lookupStatus rest k = true := by
          unfold lookupStatus alistGet at h ⊢
          rw [hfind] at h
          exact h
        have hrec := ih hlk
        unfold countTrue at hrec ⊢
        simp only [alistSet, hq, if_false, List.filter_cons]
        cases hq2 : q.2 <;> simp [hq2] <;> omega

/-- With duplicate-free keys, a stored pair is what lookup returns. -/
theorem alistGet_of_mem_nodup {α : Type} (st : List (String × α)) (q : String × α)
    (hnd : (alistKeys st).Nodup) (hmem : q ∈ st) : alistGet st q.1 = some q.2 := by
  induction st with
  | nil => simp at hmem
  | cons w rest ih =>
      rw [alistKeys_cons] at hnd
      have hnd2 := List.nodup_cons.mp hnd
      rcases List.mem_cons.mp hmem with he | hr
      · rw [he]
        have hww : (w.1 == w.1) = true := by simp
        unfold alistGet
        have hfind : List.find? (fun p => p.1 == w.1) (w :: rest) = some w := by
          unfold List.find?
          rw [hww]
        rw [hfind]
        rfl
      · have hq1 : q.1 ∈ alistKeys rest := List.mem_map_of_mem _ hr
        have hne : (w.1 == q.1) = false := by
          have hne2 : w.1 ≠ q.1 := fun he2 => hnd2.1 (he2 ▸ hq1)
          simpa using hne2
        have hfind : List.find? (fun p => p.1 == q.1) (w :: rest)
            = List.find? (fun p => p.1 == q.1) rest := by
          unfold List.find?
          rw [hne]
          cases rest <;> rfl
        unfold alistGet
        rw [hfind]
        exact ih hnd2.2 hr

/-- A fallback with a set flag makes the scan succeed. -/
theorem findAvailableFallback_isSome (st : List (String × Bool)) :
    ∀ (fbs : List String) (f : String), f ∈ fbs → lookupStatus st f = true →
      (findAvailableFallback st fbs).isSome = true := by
  intro fbs
  induction fbs with
  | nil => intro f hf _; simp at hf
  | cons g rest ih =>
      intro f hf hl
      by_cases hg : lookupStatus st g
      · simp [findAvailableFallback, hg]
      · rcases List.mem_cons.mp hf with he | hr
        · exact absurd (he ▸ hl) hg
        · simp [findAvailableFallback, hg]
          exact ih f hr hl

/-- As long as some declared model's flag is set, selection does not take
the reset branch. -/
theorem willReset_false_of_exists_true (m : ModelManager)
    (hnd : (alistKeys m.model_status).Nodup)
    (hsub : ∀ x ∈ alistKeys m.model_status, x ∈ m.primary_model :: m.fallback_models)
    (hex : ∃ q ∈ m.model_status, q.2 = true) :
    willReset m = false := by
  obtain ⟨q, hq, hqt⟩ := hex
  by_cases hp : lookupStatus m.model_status m.primary_model
  · simp [willReset, hp]
  · have hlq : lookupStatus m.model_status q.1 = true := by
      unfold lookupStatus
      rw [alistGet_of_mem_nodup m.model_status q hnd hq]
      simp [hqt]
    have hq1 : q.1 ∈ alistKeys m.model_status := List.mem_map_of_mem _ hq
    rcases List.mem_cons.mp (hsub q.1 hq1) with he | hr
    · exact absurd (he ▸ hlq) hp
    · have hsome := findAvailableFallback_isSome m.model_status m.fallback_models q.1 hr hlq
      cases hfd : findAvailableFallback m.model_status m.fallback_models with
      | some f => simp [willReset, hfd]
      | none => rw [hfd] at hsome; simp at hsome

/-- Outside the reset branch, selection returns an available model and
leaves the state untouched. -/
theorem select_no_reset (m : ModelManager) (h : willReset m = false) :
    (get_available_model m).2 = m ∧
    lookupStatus m.model_status (get_available_model m).1 = true := by
  by_cases hp : lookupStatus m.model_status m.primary_model
  · constructor
    · simp [get_available_model, hp]
    · simp [get_available_model, hp]
  · have hpf : lookupStatus m.model_status m.primary_model = false := by simpa using hp
    cases hfd : findAvailableFallback m.model_status m.fallback_models with
    | some f =>
        have hlf := lookup_of_findAvailableFallback m.model_status m.fallback_models f hfd
        constructor
        · simp [get_available_model, hpf, hfd]
        · simp [get_available_model, hpf, hfd, hlf]
    | none =>
        exfalso
        unfold willReset at h
        rw [hpf, hfd] at h
        simp at h

/-- When every attempt fails and every declared model starts available,
the loop spends all its fuel (one attempt per model), never takes the
reset branch, and ends with every flag down. -/
theorem completion_loop_exhaustion {α : Type} (attempt : Nat → String → Option α)
    (hfail : ∀ j mo, attempt j mo = none) :
    ∀ (fuel k : Nat) (m : ModelManager),
      (alistKeys m.model_status).Nodup →
      (∀ x ∈ alistKeys m.model_status, x ∈ m.primary_model :: m.fallback_models) →
      countTrue m.model_status = fuel →
      (completion_loop attempt fuel k m).result = none ∧
      (completion_loop attempt fuel k m).attempts = fuel ∧
      (completion_loop attempt fuel k m).didReset = false ∧
      countTrue (completion_loop attempt fuel k m).mgr.model_status = 0 ∧
      (completion_loop attempt fuel k m).mgr.primary_model = m.primary_model ∧
      (completion_loop attempt fuel k m).mgr.fallback_models = m.fallback_models := by
  intro fuel
  induction fuel with
  | zero =>
      intro k m _ _ hct
      exact ⟨rfl, rfl, rfl, hct, rfl, rfl⟩
  | succ n ih =>
      intro k m hnd hsub hct
      have hex : ∃ q ∈ m.model_status, q.2 = true :=
        exists_true_of_countTrue_pos m.model_status (by omega)
      have hwr : willReset m = false := willReset_false_of_exists_true m hnd hsub hex
      obtain ⟨hid, hsel⟩ := select_no_reset m hwr
      have hmemsel : (get_available_model m).1 ∈ alistKeys m.model_status :=
        mem_keys_of_lookupStatus m.model_status (get_available_model m).1 hsel
      have hkeys2 : alistKeys (alistSet m.model_status (get_available_model m).1 false)
          = alistKeys m.model_status :=
        alistKeys_set_of_mem m.model_status (get_available_model m).1 false hmemsel
      have hct2 : countTrue (alistSet m.model_status (get_available_model m).1 false) = n := by
        have := countTrue_set_false m.model_status (get_available_model m).1 hsel
        omega
      have hnd2 : (alistKeys (alistSet m.model_status
          (get_available_model m).1 false)).Nodup := by
        rw [hkeys2]
        exact hnd
      have hsub2 : ∀ x ∈ alistKeys (alistSet m.model_status
          (get_available_model m).1 false),
          x ∈ m.primary_model :: m.fallback_models := by
        intro x hx
        rw [hkeys2] at hx
        exact hsub x hx
      obtain ⟨h1, h2, h3, h4, h5, h6⟩ := ih (k + 1)
        { m with model_status := alistSet m.model_status (get_available_model m).1 false }
        hnd2 hsub2 hct2
      simp only [completion_loop, hfail]
      rw [hid]
      refine ⟨h1, ?_, ?_, h4, h5, h6⟩
      · rw [h2]
      · rw [hwr, h3]
        rfl

/-- C4 (amended): when all providers are available at the start of the
request (as after construction) and every attempt fails, the request
returns failure after exactly one attempt per registered model, no
selection during the request takes the reset branch — the full reset and
renewed primary attempt do not happen within the same request — and the
very next selection call performs the full reset and returns the
primary. -/
theorem generate_completion_exhaustion (p : String) (fbs : List String)
    (attempt : Nat → String → Option String)
    (hfail : ∀ j mo, attempt j mo = none) :
    (generate_completion attempt (mkManager p fbs)).result = none ∧
    (generate_completion attempt (mkManager p fbs)).didReset = false ∧
    (generate_completion attempt (mkManager p fbs)).attempts
      = (mkManager p fbs).model_status.length ∧
    (get_available_model (generate_completion attempt (mkManager p fbs)).mgr).1 = p ∧
    (∀ pair ∈ (get_available_model
        (generate_completion attempt (mkManager p fbs)).mgr).2.model_status,
      pair.2 = true) := by
  have hnd := nodup_keys_mkManager p fbs
  have hsub : ∀ x ∈ alistKeys (mkManager p fbs).model_status,
      x ∈ (mkManager p fbs).primary_model :: (mkManager p fbs).fallback_models :=
    keys_mkManager_subset p fbs
  have hct := countTrue_eq_length (mkManager p fbs).model_status
    (values_mkManager_true p fbs)
  obtain ⟨h1, h2, h3, h4, h5, h6⟩ := completion_loop_exhaustion attempt hfail
    (mkManager p fbs).model_status.length 0 (mkManager p fbs) hnd hsub hct
  have hallfalse : ∀ q ∈ (generate_completion attempt (mkManager p fbs)).mgr.model_status,
      q.2 = false := all_false_of_countTrue_zero _ h4
  have hlp : lookupStatus (generate_completion attempt (mkManager p fbs)).mgr.model_status
      (generate_completion attempt (mkManager p fbs)).mgr.primary_model = false :=
    lookupStatus_false_of_all_false _ hallfalse _
  have hfind : findAvailableFallback
      (generate_completion attempt (mkManager p fbs)).mgr.model_status
      (generate_completion attempt (mkManager p fbs)).mgr.fallback_models = none :=
    findAvailableFallback_none _ _ (fun f _ => lookupStatus_false_of_all_false _ hallfalse f)
  refine ⟨h1, h3, h2, ?_, ?_⟩
  · simp only [get_available_model, hlp, hfind]
    simp only [Bool.false_eq_true, if_false]
    exact h5
  · intro pair hpair
    simp only [get_available_model, hlp, hfind] at hpair
    simp only [Bool.false_eq_true, if_false] at hpair
    exact mem_resetAll _ pair hpair

/-- Witness for C4 at primary "A", fallbacks ["B","C"], all attempts
failing. -/
theorem generate_completion_exhaustion_witness :
    (generate_completion (fun _ _ => (none : Option String))
        (mkManager "A" ["B", "C"])).result = none ∧
    (generate_completion (fun _ _ => (none : Option String))
        (mkManager "A" ["B", "C"])).didReset = false ∧
    (generate_completion (fun _ _ => (none : Option String))
        (mkManager "A" ["B", "C"])).attempts
      = (mkManager "A" ["B", "C"]).model_status.length ∧
    (get_available_model (generate_completion (fun _ _ => (none : Option String))
        (mkManager "A" ["B", "C"])).mgr).1 = "A" ∧
    (∀ pair ∈ (get_available_model
        (generate_completion (fun _ _ => (none : Option String))
          (mkManager "A" ["B", "C"])).mgr).2.model_status,
      pair.2 = true) :=
  generate_completion_exhaustion "A" ["B", "C"] (fun _ _ => none) (fun _ _ => rfl)
